import Mathlib

/-!
Verification of the ECDSA raw (r, s) / ASN.1 DER signature codec in
`examples/ecdsa_utils/ecdsa_utils.c`.

Buffers are modelled as `List Nat` of byte values; pointers into caller
buffers become offsets, and the in-out length cells become explicit
arguments and results.  A function that returns the C zero sentinel is
modelled with `Option`: `none` is the sentinel, `some` carries the return
value together with the bytes the function writes starting at offset 0 of
its output buffer.  Physical memory around a buffer is modelled by the
`Run` wrappers, which apply the writes of a successful call to a memory
list and leave the memory untouched on failure, exactly as the C code
does (all validation happens before the first store).
-/

namespace EcdsaUtils

/-- ASN.1 DER tag value for INTEGER (`DER_TAG_INTEGER`). -/
def DER_TAG_INTEGER : Nat := 2

/-- Maximum single-byte DER length supported (`DER_INTEGER_MAX_LEN`, 0x7F). -/
def DER_INTEGER_MAX_LEN : Nat := 127

/-- Offset of the value field in a TLV (`ASN1_DER_VAL_OFFSET`). -/
def ASN1_DER_VAL_OFFSET : Nat := 2

/-- Mask for the high (sign) bit of a byte (`DER_UINT_MASK`, 0x80). -/
def DER_UINT_MASK : Nat := 128

/-- The leading-zero skip loop of `encode_der_integer`: advance past zero
bytes but never past the final byte (`for(; cur_data < (data_end - 1); ...)`).
Returns the suffix of `data` from the stop position. -/
def derPayload : List Nat → List Nat
  | [] => []
  | [b] => [b]
  | b :: c :: rest => if b = 0 then derPayload (c :: rest) else b :: c :: rest

/-- The stuffing-byte decision of `encode_der_integer`
(`if (*cur_data & DER_UINT_MASK) integer_field_cur++;`): 1 when the first
remaining byte has its high bit set, else 0. -/
def encStuff (data : List Nat) : Nat :=
  if (derPayload data).headD 0 &&& DER_UINT_MASK ≠ 0 then 1 else 0

/-- Embedding of `encode_der_integer(data, data_len, out_buf, out_buf_len)`
with `data_len = data.length`.  `none` is the zero sentinel; `some (ret, tlv)`
means the call returns `ret` after writing the bytes `tlv` at offsets
`0 .. ret - 1` of the output buffer.  The two guards mirror the source's
pointer comparison `(integer_field_cur + write_length - 1) > out_end` (all
offsets relative to `out_buf`, with `out_end = out_buf + out_buf_len - 1`)
and the length-byte limit `integer_len > DER_INTEGER_MAX_LEN`. -/
def encode_der_integer (data : List Nat) (out_buf_len : Nat) : Option (Nat × List Nat) :=
  if data.length = 0 then none
  else if (ASN1_DER_VAL_OFFSET + encStuff data) + (derPayload data).length - 1
        > out_buf_len - 1 then none
  else if encStuff data + (derPayload data).length > DER_INTEGER_MAX_LEN then none
  else some ((encStuff data + (derPayload data).length) + ASN1_DER_VAL_OFFSET,
             DER_TAG_INTEGER :: (encStuff data + (derPayload data).length) ::
               (List.replicate (encStuff data) 0 ++ derPayload data))

/-- Overwrite the bytes of `mem` starting at offset 0 with `bytes`
(the effect of the `memset`/`memcpy`/store sequence of a call that writes
offsets `0 .. bytes.length - 1`). -/
def writeBytes (mem bytes : List Nat) : List Nat :=
  bytes ++ mem.drop bytes.length

/-- `encode_der_integer` acting on the physical memory `mem` that backs the
output buffer (so `mem` may extend past the declared capacity
`out_buf_len`).  Returns the C return value and the memory afterwards. -/
def encodeRun (data : List Nat) (out_buf_len : Nat) (mem : List Nat) : Nat × List Nat :=
  match encode_der_integer data out_buf_len with
  | none => (0, mem)
  | some (ret, tlv) => (ret, writeBytes mem tlv)

/-- The stuffing-byte strip decision of `decode_asn1_uint`
(`if (integer_length > 1) { if (*integer_field_cur == 0x00) ... }`):
1 when the declared length exceeds 1 and the first value byte is 0x00. -/
def decStrip (asn1 : List Nat) : Nat :=
  if 1 < asn1.getD 1 0 ∧ asn1.getD ASN1_DER_VAL_OFFSET 0 = 0 then 1 else 0

/-- Embedding of `decode_asn1_uint(asn1, asn1_len, out_int, out_int_len)`
with `out_int_len` the capacity on entry.  `none` is the zero sentinel;
`some (consumed, newLen, out)` means the call returns `consumed`, stores
`newLen` into the in-out length cell, and writes the bytes `out`
(`out.length = out_int_len`: padding zeros then the stripped value) at
offsets `0 .. out_int_len - 1` of the output buffer.  Each guard mirrors a
source check, with the read-bound comparison
`(integer_field_cur + integer_length - 1) > (asn1_end - 1)` expressed on
offsets relative to `asn1`. -/
def decode_asn1_uint (asn1 : List Nat) (asn1_len out_int_len : Nat) :
    Option (Nat × Nat × List Nat) :=
  if asn1_len < ASN1_DER_VAL_OFFSET + 1 then none
  else if asn1.getD 0 0 ≠ DER_TAG_INTEGER then none
  else if asn1.getD 1 0 = 0 ∨ asn1.getD 1 0 > DER_INTEGER_MAX_LEN then none
  else if ASN1_DER_VAL_OFFSET + asn1.getD 1 0 - 1 > asn1_len - 1 then none
  else if 1 < asn1.getD 1 0 ∧ asn1.getD (ASN1_DER_VAL_OFFSET + decStrip asn1) 0 = 0 then none
  else if asn1.getD 1 0 - decStrip asn1 > out_int_len then none
  else some ((ASN1_DER_VAL_OFFSET + decStrip asn1) + (asn1.getD 1 0 - decStrip asn1),
             asn1.getD 1 0 - decStrip asn1,
             List.replicate (out_int_len - (asn1.getD 1 0 - decStrip asn1)) 0 ++
               (List.range (asn1.getD 1 0 - decStrip asn1)).map
                 (fun i => asn1.getD ((ASN1_DER_VAL_OFFSET + decStrip asn1) + i) 0))

/-- `decode_asn1_uint` acting on the physical memory `mem` that backs the
output buffer.  Returns the C return value, the in-out length cell after
the call, and the memory afterwards. -/
def decodeRun (asn1 : List Nat) (asn1_len out_int_len : Nat) (mem : List Nat) :
    Nat × Nat × List Nat :=
  match decode_asn1_uint asn1 asn1_len out_int_len with
  | none => (0, out_int_len, mem)
  | some (consumed, newLen, out) => (consumed, newLen, writeBytes mem out)

/-- Embedding of `ecdsa_rs_to_asn1(r, s, rs_len, asn_sig, asn_sig_len)` with
`rs_len = r.length = s.length` and `asn_sig_len` the capacity on entry.
`none` is `false`; `some (total, out)` means the call returns `true`, stores
`total` into the in-out length cell, and the signature buffer holds `out`
(`r`'s TLV at offset 0 followed by `s`'s TLV at offset `out_len_r`). -/
def ecdsa_rs_to_asn1 (r s : List Nat) (asn_sig_len : Nat) : Option (Nat × List Nat) :=
  match encode_der_integer r asn_sig_len with
  | none => none
  | some (out_len_r, tlv_r) =>
    match encode_der_integer s (asn_sig_len - out_len_r) with
    | none => none
    | some (out_len_s, tlv_s) => some (out_len_r + out_len_s, tlv_r ++ tlv_s)

/-- Embedding of `asn1_to_ecdsa_rs_sep(asn1, asn1_len, r, r_len, s, s_len)`.
`some ((new_r_len, r_out), (new_s_len, s_out))` carries each component's
updated length cell and the bytes written to its buffer.  The `s` TLV is
decoded from the input advanced by the bytes consumed for `r`. -/
def asn1_to_ecdsa_rs_sep (asn1 : List Nat) (asn1_len r_len s_len : Nat) :
    Option ((Nat × List Nat) × (Nat × List Nat)) :=
  match decode_asn1_uint asn1 asn1_len r_len with
  | none => none
  | some (consumed_r, new_r_len, r_out) =>
    match decode_asn1_uint (asn1.drop consumed_r) (asn1_len - consumed_r) s_len with
    | none => none
    | some (_, new_s_len, s_out) => some ((new_r_len, r_out), (new_s_len, s_out))

/-- Embedding of `asn1_to_ecdsa_rs(asn1, asn1_len, rs, rs_len)`.  The C
null-pointer guard `rs_len == NULL` compares the integer `rs_len` with 0,
so `rs_len = 0` is rejected there; odd `rs_len` is rejected next.  On
success the single `rs` buffer holds `r`'s half followed by `s`'s half. -/
def asn1_to_ecdsa_rs (asn1 : List Nat) (asn1_len rs_len : Nat) : Option (List Nat) :=
  if rs_len = 0 then none
  else if rs_len % 2 ≠ 0 then none
  else
    match asn1_to_ecdsa_rs_sep asn1 asn1_len (rs_len / 2) (rs_len / 2) with
    | none => none
    | some ((_, r_out), (_, s_out)) => some (r_out ++ s_out)

/-! ### Properties of the leading-zero skip loop -/

theorem derPayload_length_pos : ∀ (data : List Nat), data ≠ [] → 0 < (derPayload data).length
  | [], h => absurd rfl h
  | [_], _ => by simp [derPayload]
  | b :: c :: rest, _ => by
      by_cases hb : b = 0
      · simpa [derPayload, hb] using derPayload_length_pos (c :: rest) (by simp)
      · simp [derPayload, hb]

theorem derPayload_length_le : ∀ (data : List Nat), (derPayload data).length ≤ data.length
  | [] => le_refl _
  | [_] => le_refl _
  | b :: c :: rest => by
      by_cases hb : b = 0
      · simp only [derPayload, hb, if_true]
        exact le_trans (derPayload_length_le (c :: rest)) (by simp)
      · simp [derPayload, hb]

theorem derPayload_reconstruct : ∀ (data : List Nat), data ≠ [] →
    List.replicate (data.length - (derPayload data).length) 0 ++ derPayload data = data
  | [], h => absurd rfl h
  | [b], _ => by simp [derPayload]
  | b :: c :: rest, _ => by
      by_cases hb : b = 0
      · have hle := derPayload_length_le (c :: rest)
        have ih := derPayload_reconstruct (c :: rest) (by simp)
        have hsub : (b :: c :: rest).length - (derPayload (b :: c :: rest)).length
            = ((c :: rest).length - (derPayload (c :: rest)).length) + 1 := by
          simp only [derPayload, hb, if_true, List.length_cons] at hle ⊢
          omega
        rw [hsub, List.replicate_succ, List.cons_append]
        simp only [derPayload, hb, if_true]
        rw [ih]
      · simp [derPayload, hb]

theorem derPayload_headD_ne_zero : ∀ (data : List Nat),
    2 ≤ (derPayload data).length → (derPayload data).headD 0 ≠ 0
  | [], h => by simp [derPayload] at h
  | [_], h => by simp [derPayload] at h
  | b :: c :: rest, h => by
      by_cases hb : b = 0
      · simp only [derPayload, hb, if_true] at h ⊢
        exact derPayload_headD_ne_zero (c :: rest) h
      · simp [derPayload, hb]

theorem derPayload_of_all_zero : ∀ (data : List Nat), data ≠ [] →
    (∀ b ∈ data, b = 0) → derPayload data = [0]
  | [], h, _ => absurd rfl h
  | [b], _, hz => by simp [derPayload, hz b (by simp)]
  | b :: c :: rest, _, hz => by
      have hb : b = 0 := hz b (by simp)
      simp only [derPayload, hb, if_true]
      exact derPayload_of_all_zero (c :: rest) (by simp)
        (fun x hx => hz x (by simp [hx]))

theorem encStuff_le_one (data : List Nat) : encStuff data ≤ 1 := by
  unfold encStuff; split <;> omega

theorem headD_ne_zero_of_encStuff (data : List Nat) (h : encStuff data = 1) :
    (derPayload data).headD 0 ≠ 0 := by
  unfold encStuff at h
  intro hz
  rw [hz] at h
  simp [Nat.zero_and] at h

theorem range_map_getD : ∀ (l : List Nat), (List.range l.length).map (fun i => l.getD i 0) = l
  | [] => rfl
  | b :: rest => by
      rw [List.length_cons, List.range_succ_eq_map, List.map_cons, List.map_map]
      have : ((fun i => (b :: rest).getD i 0) ∘ Nat.succ) = fun i => rest.getD i 0 := by
        funext i
        simp [Function.comp, List.getD_cons_succ]
      rw [this, List.getD_cons_zero, range_map_getD rest]

/-! ### Success characterizations -/

theorem encode_some_elim {data : List Nat} {cap ret : Nat} {tlv : List Nat}
    (h : encode_der_integer data cap = some (ret, tlv)) :
    data ≠ [] ∧
    2 + encStuff data + (derPayload data).length ≤ cap ∧
    encStuff data + (derPayload data).length ≤ 127 ∧
    ret = encStuff data + (derPayload data).length + 2 ∧
    tlv = 2 :: (encStuff data + (derPayload data).length) ::
          (List.replicate (encStuff data) 0 ++ derPayload data) := by
  unfold encode_der_integer at h
  simp only [DER_TAG_INTEGER, DER_INTEGER_MAX_LEN, ASN1_DER_VAL_OFFSET] at h
  split_ifs at h with h1 h2 h3
  rw [Option.some.injEq, Prod.mk.injEq] at h
  have hne : data ≠ [] := fun he => h1 (by simp [he])
  have hpos := derPayload_length_pos data hne
  exact ⟨hne, by omega, by omega, h.1.symm, h.2.symm⟩

theorem encode_some_intro (data : List Nat) (cap : Nat) (h0 : data ≠ [])
    (h1 : 2 + encStuff data + (derPayload data).length ≤ cap)
    (h2 : encStuff data + (derPayload data).length ≤ 127) :
    encode_der_integer data cap =
      some (encStuff data + (derPayload data).length + 2,
            2 :: (encStuff data + (derPayload data).length) ::
              (List.replicate (encStuff data) 0 ++ derPayload data)) := by
  have hpos := derPayload_length_pos data h0
  unfold encode_der_integer
  simp only [DER_TAG_INTEGER, DER_INTEGER_MAX_LEN, ASN1_DER_VAL_OFFSET]
  rw [if_neg (fun hh => h0 (List.length_eq_zero.mp hh)), if_neg (by omega), if_neg (by omega)]

theorem decode_some_elim {asn1 : List Nat} {n c consumed newLen : Nat} {out : List Nat}
    (h : decode_asn1_uint asn1 n c = some (consumed, newLen, out)) :
    3 ≤ n ∧ asn1.getD 0 0 = 2 ∧ 1 ≤ asn1.getD 1 0 ∧ asn1.getD 1 0 ≤ 127 ∧
    2 + asn1.getD 1 0 ≤ n ∧
    ¬(1 < asn1.getD 1 0 ∧ asn1.getD (2 + decStrip asn1) 0 = 0) ∧
    asn1.getD 1 0 - decStrip asn1 ≤ c ∧
    consumed = 2 + decStrip asn1 + (asn1.getD 1 0 - decStrip asn1) ∧
    newLen = asn1.getD 1 0 - decStrip asn1 ∧
    out = List.replicate (c - (asn1.getD 1 0 - decStrip asn1)) 0 ++
          (List.range (asn1.getD 1 0 - decStrip asn1)).map
            (fun i => asn1.getD (2 + decStrip asn1 + i) 0) := by
  unfold decode_asn1_uint at h
  simp only [DER_TAG_INTEGER, DER_INTEGER_MAX_LEN, ASN1_DER_VAL_OFFSET] at h
  split_ifs at h with h1 h2 h3 h4 h5 h6
  rw [Option.some.injEq, Prod.mk.injEq, Prod.mk.injEq] at h
  push_neg at h2 h3
  exact ⟨by omega, h2, by omega, by omega, by omega, h5, by omega,
    h.1.symm, h.2.1.symm, h.2.2.symm⟩

theorem decode_some_intro (asn1 : List Nat) (n c : Nat)
    (h1 : 3 ≤ n) (h2 : asn1.getD 0 0 = 2) (h3 : 1 ≤ asn1.getD 1 0) (h4 : asn1.getD 1 0 ≤ 127)
    (h5 : 2 + asn1.getD 1 0 ≤ n)
    (h6 : ¬(1 < asn1.getD 1 0 ∧ asn1.getD (2 + decStrip asn1) 0 = 0))
    (h7 : asn1.getD 1 0 - decStrip asn1 ≤ c) :
    decode_asn1_uint asn1 n c =
      some (2 + decStrip asn1 + (asn1.getD 1 0 - decStrip asn1),
            asn1.getD 1 0 - decStrip asn1,
            List.replicate (c - (asn1.getD 1 0 - decStrip asn1)) 0 ++
              (List.range (asn1.getD 1 0 - decStrip asn1)).map
                (fun i => asn1.getD (2 + decStrip asn1 + i) 0)) := by
  unfold decode_asn1_uint
  simp only [DER_TAG_INTEGER, DER_INTEGER_MAX_LEN, ASN1_DER_VAL_OFFSET]
  rw [if_neg (by omega), if_neg (by omega), if_neg (by omega), if_neg (by omega),
    if_neg h6, if_neg (by omega)]

theorem decStrip_cases (asn1 : List Nat) :
    decStrip asn1 = 0 ∨
    (decStrip asn1 = 1 ∧ 1 < asn1.getD 1 0 ∧ asn1.getD 2 0 = 0) := by
  unfold decStrip
  simp only [ASN1_DER_VAL_OFFSET]
  split_ifs with hc
  · exact Or.inr ⟨rfl, hc⟩
  · exact Or.inl rfl

theorem decStrip_eq_one (asn1 : List Nat)
    (h : 1 < asn1.getD 1 0 ∧ asn1.getD 2 0 = 0) : decStrip asn1 = 1 := by
  unfold decStrip
  simp only [ASN1_DER_VAL_OFFSET]
  rw [if_pos h]

theorem decode_out_length {asn1 : List Nat} {n c consumed newLen : Nat} {out : List Nat}
    (h : decode_asn1_uint asn1 n c = some (consumed, newLen, out)) : out.length = c := by
  obtain ⟨-, -, -, -, -, -, h7, -, -, ho⟩ := decode_some_elim h
  rw [ho]
  simp only [List.length_append, List.length_replicate, List.length_map, List.length_range]
  omega

theorem getD_take (l : List Nat) (n i : Nat) (h : i < n) :
    (l.take n).getD i 0 = l.getD i 0 := by
  rw [List.getD_eq_getElem?_getD, List.getD_eq_getElem?_getD, List.getElem?_take, if_pos h]

theorem drop_writeBytes (mem bytes : List Nat) (cap : Nat) (h : bytes.length ≤ cap) :
    (writeBytes mem bytes).drop cap = mem.drop cap := by
  unfold writeBytes
  rw [show cap = bytes.length + (cap - bytes.length) from by omega, List.drop_append,
    List.drop_drop]

theorem encode_tlv_length {data : List Nat} {cap ret : Nat} {tlv : List Nat}
    (h : encode_der_integer data cap = some (ret, tlv)) :
    tlv.length = ret ∧ ret ≤ cap := by
  obtain ⟨-, h2, -, hr, ht⟩ := encode_some_elim h
  constructor
  · rw [ht, hr]
    simp only [List.length_cons, List.length_append, List.length_replicate]
  · omega

theorem encodeRun_drop (data : List Nat) (cap : Nat) (mem : List Nat) :
    ((encodeRun data cap mem).2).drop cap = mem.drop cap := by
  unfold encodeRun
  cases henc : encode_der_integer data cap with
  | none => rfl
  | some v =>
    obtain ⟨ret, tlv⟩ := v
    obtain ⟨hlen, hle⟩ := encode_tlv_length henc
    exact drop_writeBytes mem tlv cap (by omega)

theorem decode_take (asn1 : List Nat) (n c : Nat) :
    decode_asn1_uint (asn1.take n) n c = decode_asn1_uint asn1 n c := by
  by_cases h1 : n < 3
  · unfold decode_asn1_uint
    simp only [ASN1_DER_VAL_OFFSET]
    rw [if_pos (by omega), if_pos (by omega)]
  · have g0 : (asn1.take n).getD 0 0 = asn1.getD 0 0 := getD_take _ _ _ (by omega)
    have g1 : (asn1.take n).getD 1 0 = asn1.getD 1 0 := getD_take _ _ _ (by omega)
    have g2 : (asn1.take n).getD 2 0 = asn1.getD 2 0 := getD_take _ _ _ (by omega)
    have gs : decStrip (asn1.take n) = decStrip asn1 := by
      unfold decStrip
      simp only [ASN1_DER_VAL_OFFSET]
      simp only [g1, g2]
    unfold decode_asn1_uint
    simp only [ASN1_DER_VAL_OFFSET, DER_TAG_INTEGER, DER_INTEGER_MAX_LEN]
    simp only [g0, g1, gs]
    by_cases h2 : asn1.getD 0 0 ≠ 2
    · simp only [if_pos h2]
    · simp only [if_neg h2]
      by_cases h3 : asn1.getD 1 0 = 0 ∨ asn1.getD 1 0 > 127
      · simp only [if_pos h3]
      · simp only [if_neg h3]
        by_cases h4 : 2 + asn1.getD 1 0 - 1 > n - 1
        · simp only [if_pos h4]
        · simp only [if_neg h4]
          have hlen : 2 + asn1.getD 1 0 ≤ n := by omega
          have hsle : decStrip asn1 = 0 ∨
              (decStrip asn1 = 1 ∧ 1 < asn1.getD 1 0 ∧ asn1.getD 2 0 = 0) :=
            decStrip_cases asn1
          have gcur : (asn1.take n).getD (2 + decStrip asn1) 0
              = asn1.getD (2 + decStrip asn1) 0 := by
            rcases hsle with hs | ⟨hs, hgt, -⟩ <;> rw [hs] <;>
              exact getD_take _ _ _ (by omega)
          simp only [gcur]
          by_cases h5 : 1 < asn1.getD 1 0 ∧ asn1.getD (2 + decStrip asn1) 0 = 0
          · simp only [if_pos h5]
          · simp only [if_neg h5]
            by_cases h6 : asn1.getD 1 0 - decStrip asn1 > c
            · simp only [if_pos h6]
            · simp only [if_neg h6]
              have hmap : (List.range (asn1.getD 1 0 - decStrip asn1)).map
                    (fun i => (asn1.take n).getD ((2 + decStrip asn1) + i) 0)
                  = (List.range (asn1.getD 1 0 - decStrip asn1)).map
                    (fun i => asn1.getD ((2 + decStrip asn1) + i) 0) := by
                refine List.map_congr_left (fun i hi => ?_)
                have hilt := List.mem_range.mp hi
                rcases hsle with hs | ⟨hs, hgt, -⟩ <;> rw [hs] at hilt ⊢ <;>
                  exact getD_take _ _ _ (by omega)
              simp only [hmap]

theorem decodeRun_drop (asn1 : List Nat) (n c : Nat) (mem : List Nat) :
    ((decodeRun asn1 n c mem).2.2).drop c = mem.drop c := by
  unfold decodeRun
  cases hdec : decode_asn1_uint asn1 n c with
  | none => rfl
  | some v =>
    obtain ⟨consumed, newLen, out⟩ := v
    have hlen := decode_out_length hdec
    exact drop_writeBytes mem out c (by omega)

/-! ### Claim theorems -/

/-- C3: whenever the integer encoder produces a TLV, its value field is the
optional stuffing byte followed by the zero-skipped payload and never begins
with two consecutive 0x00 bytes; the single 0x00 stuffing byte is prepended
iff the first byte after skipping leading zeros (never the final byte) has
its high bit 0x80 set; and an all-zero input encodes as the single value
byte 0x00 with no stuffing. -/
theorem C3_encoder_minimality (data : List Nat) (cap ret : Nat) (tlv : List Nat)
    (h : encode_der_integer data cap = some (ret, tlv)) :
    tlv.drop ASN1_DER_VAL_OFFSET = List.replicate (encStuff data) 0 ++ derPayload data ∧
    (encStuff data = 1 ↔ (derPayload data).headD 0 &&& DER_UINT_MASK ≠ 0) ∧
    (¬ ∃ rest, tlv.drop ASN1_DER_VAL_OFFSET = 0 :: 0 :: rest) ∧
    ((∀ b ∈ data, b = 0) → tlv.drop ASN1_DER_VAL_OFFSET = [0] ∧ encStuff data = 0) := by
  obtain ⟨hne, -, -, -, htlv⟩ := encode_some_elim h
  have hpl := derPayload_length_pos data hne
  have hs1 := encStuff_le_one data
  have hdrop : tlv.drop ASN1_DER_VAL_OFFSET
      = List.replicate (encStuff data) 0 ++ derPayload data := by
    rw [htlv]; rfl
  refine ⟨hdrop, ?_, ?_, ?_⟩
  · unfold encStuff
    split_ifs with hc
    · exact iff_of_true rfl hc
    · exact iff_of_false not_false hc
  · rintro ⟨rest, hr⟩
    rw [hdrop] at hr
    rcases (by omega : encStuff data = 0 ∨ encStuff data = 1) with h0 | h0
    · rw [h0, List.replicate_zero, List.nil_append] at hr
      have h2le : 2 ≤ (derPayload data).length := by rw [hr]; simp
      have hhd := derPayload_headD_ne_zero data h2le
      rw [hr] at hhd
      exact hhd rfl
    · rw [h0, List.replicate_one, List.singleton_append] at hr
      have hhd := headD_ne_zero_of_encStuff data h0
      have hp : derPayload data = 0 :: rest := (List.cons_inj_right 0).mp hr
      rw [hp] at hhd
      exact hhd rfl
  · intro hz
    have hp0 := derPayload_of_all_zero data hne hz
    have hs0 : encStuff data = 0 := by
      unfold encStuff
      simp only [DER_UINT_MASK]
      rw [hp0]
      simp
    refine ⟨?_, hs0⟩
    rw [hdrop, hp0, hs0]
    rfl

/-- C5: whenever the integer decoder succeeds, its return value equals 2
(tag byte plus length byte) plus the original declared value-field length,
whether or not a 0x00 stuffing byte was stripped. -/
theorem C5_decoder_consumed (asn1 : List Nat) (n c consumed newLen : Nat) (out : List Nat)
    (h : decode_asn1_uint asn1 n c = some (consumed, newLen, out)) :
    consumed = 2 + asn1.getD 1 0 := by
  obtain ⟨-, -, h3, -, -, -, -, hc, -, -⟩ := decode_some_elim h
  rcases decStrip_cases asn1 with hs | ⟨hs, hlen, -⟩ <;> omega

/-- C7: whenever the integer decoder succeeds with output capacity c and
stuffing-stripped width newLen, the first c - newLen output bytes are 0x00,
the last newLen output bytes are the stripped value bytes copied in order
(from input offset consumed - newLen), and the in-out length cell is updated
from c to newLen. -/
theorem C7_decoder_postcondition (asn1 : List Nat) (n c consumed newLen : Nat)
    (out : List Nat)
    (h : decode_asn1_uint asn1 n c = some (consumed, newLen, out)) :
    newLen ≤ c ∧ out.length = c ∧
    out.take (c - newLen) = List.replicate (c - newLen) 0 ∧
    out.drop (c - newLen) =
      (List.range newLen).map (fun i => asn1.getD ((consumed - newLen) + i) 0) := by
  have hlen := decode_out_length h
  obtain ⟨-, -, h3, -, -, -, h7, hc, hl, ho⟩ := decode_some_elim h
  have hcur : consumed - newLen = 2 + decStrip asn1 := by
    rcases decStrip_cases asn1 with hs | ⟨hs, hgt, -⟩ <;> omega
  subst hl
  refine ⟨h7, hlen, ?_, ?_⟩
  · rw [ho]
    exact List.take_left' (by simp)
  · rw [ho, hcur]
    exact List.drop_left' (by simp)

/-- C10: the integer decoder accepts a redundant 0x00 stuffing byte: on the
input TLV 02 02 00 01 (next byte's high bit clear, so the stuffing byte is
not required by DER) it succeeds, strips the 0x00 and decodes the value 01,
consuming all 4 bytes. -/
theorem C10_redundant_stuffing_accepted :
    [2, 2, 0, 1].getD 3 0 &&& DER_UINT_MASK = 0 ∧
    decode_asn1_uint [2, 2, 0, 1] 4 1 = some (4, 1, [1]) := by
  constructor
  · decide
  · decide

/-- C2: the integer encoder never writes at any offset at or beyond the
declared capacity out_buf_len, and on success its TLV fits within that
capacity (it fails instead when the TLV would not fit); the integer
decoder's result depends only on the first asn1_len input bytes (it never
reads at or beyond asn1_len) and it never writes at any offset at or beyond
the declared output capacity. -/
theorem C2_bounds_safety :
    (∀ data out_buf_len mem,
      ((encodeRun data out_buf_len mem).2).drop out_buf_len = mem.drop out_buf_len) ∧
    (∀ data out_buf_len ret tlv, encode_der_integer data out_buf_len = some (ret, tlv) →
      tlv.length = ret ∧ ret ≤ out_buf_len) ∧
    (∀ asn1 asn1_len out_int_len,
      decode_asn1_uint (asn1.take asn1_len) asn1_len out_int_len
        = decode_asn1_uint asn1 asn1_len out_int_len) ∧
    (∀ asn1 asn1_len out_int_len mem,
      ((decodeRun asn1 asn1_len out_int_len mem).2.2).drop out_int_len
        = mem.drop out_int_len) :=
  ⟨encodeRun_drop, fun _ _ _ _ h => encode_tlv_length h, decode_take, decodeRun_drop⟩

theorem C2_witness : [2, 1, 1].length = 3 ∧ 3 ≤ 6 :=
  C2_bounds_safety.2.1 [0, 0, 1] 6 3 [2, 1, 1] (by decide)

/-- C4: the integer decoder returns the zero sentinel whenever fewer than 3
input bytes are available, the tag byte is not 0x02, the length byte is 0 or
exceeds 127, the declared value length extends past the declared input
length, the value field begins with two consecutive 0x00 bytes, or the
stuffing-stripped integer width exceeds the output capacity. -/
theorem C4_decoder_rejection (asn1 : List Nat) (n c : Nat)
    (h : n < 3 ∨ asn1.getD 0 0 ≠ DER_TAG_INTEGER ∨ asn1.getD 1 0 = 0 ∨
         DER_INTEGER_MAX_LEN < asn1.getD 1 0 ∨ n < 2 + asn1.getD 1 0 ∨
         (1 < asn1.getD 1 0 ∧ asn1.getD 2 0 = 0 ∧ asn1.getD 3 0 = 0) ∨
         c < asn1.getD 1 0 - decStrip asn1) :
    decode_asn1_uint asn1 n c = none := by
  cases hd : decode_asn1_uint asn1 n c with
  | none => rfl
  | some v =>
    exfalso
    obtain ⟨consumed, newLen, out⟩ := v
    obtain ⟨e1, e2, e3, e4, e5, e6, e7, -, -, -⟩ := decode_some_elim hd
    simp only [DER_TAG_INTEGER, DER_INTEGER_MAX_LEN] at h
    rcases h with h | h | h | h | h | ⟨ha, hb, hc2⟩ | h
    · omega
    · exact h e2
    · omega
    · omega
    · omega
    · have hs := decStrip_eq_one asn1 ⟨ha, hb⟩
      exact e6 ⟨ha, by rw [hs]; exact hc2⟩
    · omega

theorem C4_witness : decode_asn1_uint [] 0 0 = none :=
  C4_decoder_rejection [] 0 0 (Or.inl (by omega))

/-- C6: when the integer encoder returns the zero sentinel no byte of the
output buffer has been modified, and when the integer decoder returns the
zero sentinel neither its output buffer nor the in-out length cell has been
modified: all writes are committed only after every validation check for
the TLV has passed. -/
theorem C6_atomicity_on_failure (data : List Nat) (cap : Nat) (mem : List Nat)
    (asn1 : List Nat) (n c : Nat) (mem2 : List Nat) :
    ((encodeRun data cap mem).1 = 0 → (encodeRun data cap mem).2 = mem) ∧
    ((decodeRun asn1 n c mem2).1 = 0 →
      (decodeRun asn1 n c mem2).2.1 = c ∧ (decodeRun asn1 n c mem2).2.2 = mem2) := by
  constructor
  · unfold encodeRun
    cases henc : encode_der_integer data cap with
    | none => intro _; rfl
    | some v =>
      obtain ⟨ret, tlv⟩ := v
      intro h0
      have h0' : ret = 0 := h0
      obtain ⟨-, -, -, hr, -⟩ := encode_some_elim henc
      exfalso
      omega
  · unfold decodeRun
    cases hdec : decode_asn1_uint asn1 n c with
    | none => intro _; exact ⟨rfl, rfl⟩
    | some v =>
      obtain ⟨consumed, newLen, out⟩ := v
      intro h0
      have h0' : consumed = 0 := h0
      obtain ⟨-, -, h3, -, -, -, -, hcn, -, -⟩ := decode_some_elim hdec
      exfalso
      omega

theorem C6_witness :
    (encodeRun [] 5 [7]).2 = [7] ∧
    ((decodeRun [] 0 3 [9]).2.1 = 3 ∧ (decodeRun [] 0 3 [9]).2.2 = [9]) :=
  ⟨(C6_atomicity_on_failure [] 5 [7] [] 0 3 [9]).1 (by decide),
   (C6_atomicity_on_failure [] 5 [7] [] 0 3 [9]).2 (by decide)⟩

theorem C3_witness :
    [2, 2, 0, 255].drop ASN1_DER_VAL_OFFSET
        = List.replicate (encStuff [255]) 0 ++ derPayload [255] ∧
    (encStuff [255] = 1 ↔ (derPayload [255]).headD 0 &&& DER_UINT_MASK ≠ 0) ∧
    (¬ ∃ rest, [2, 2, 0, 255].drop ASN1_DER_VAL_OFFSET = 0 :: 0 :: rest) ∧
    ((∀ b ∈ [255], b = 0) → [2, 2, 0, 255].drop ASN1_DER_VAL_OFFSET = [0]
        ∧ encStuff [255] = 0) :=
  C3_encoder_minimality [255] 6 4 [2, 2, 0, 255] (by decide)

theorem C5_witness : (3 : Nat) = 2 + [2, 1, 5].getD 1 0 :=
  C5_decoder_consumed [2, 1, 5] 3 1 3 1 [5] (by decide)

theorem C7_witness :
    1 ≤ 1 ∧ [5].length = 1 ∧
    [5].take (1 - 1) = List.replicate (1 - 1) 0 ∧
    [5].drop (1 - 1) = (List.range 1).map (fun i => [2, 1, 5].getD ((3 - 1) + i) 0) :=
  C7_decoder_postcondition [2, 1, 5] 3 1 3 1 [5] (by decide)

theorem map_range_getD_cons2 (a b : Nat) (p : List Nat) :
    (List.range p.length).map (fun i => (a :: b :: p).getD (2 + i) 0) = p := by
  have hf : (fun i => (a :: b :: p).getD (2 + i) 0) = fun i => p.getD i 0 := by
    funext i
    rw [show 2 + i = i + 1 + 1 from by omega, List.getD_cons_succ, List.getD_cons_succ]
  rw [hf, range_map_getD]

theorem map_range_getD_cons3 (a b d : Nat) (p : List Nat) :
    (List.range p.length).map (fun i => (a :: b :: d :: p).getD (2 + 1 + i) 0) = p := by
  have hf : (fun i => (a :: b :: d :: p).getD (2 + 1 + i) 0) = fun i => p.getD i 0 := by
    funext i
    rw [show 2 + 1 + i = i + 1 + 1 + 1 from by omega, List.getD_cons_succ,
      List.getD_cons_succ, List.getD_cons_succ]
  rw [hf, range_map_getD]

theorem decode_of_encode_zero (p : List Nat) (c : Nat)
    (hpl : 0 < p.length) (hpc : p.length ≤ c) (hL : p.length ≤ 127)
    (hhead : 2 ≤ p.length → p.headD 0 ≠ 0) :
    decode_asn1_uint (2 :: p.length :: p) (p.length + 2) c =
      some (p.length + 2, p.length, List.replicate (c - p.length) 0 ++ p) := by
  have g1 : (2 :: p.length :: p).getD 1 0 = p.length := rfl
  have g2 : (2 :: p.length :: p).getD 2 0 = p.headD 0 := by
    cases p with
    | nil => simp at hpl
    | cons a t => rfl
  have hstrip : decStrip (2 :: p.length :: p) = 0 := by
    unfold decStrip
    simp only [ASN1_DER_VAL_OFFSET, g1, g2]
    rw [if_neg]
    rintro ⟨hgt, hz⟩
    exact hhead (by omega) hz
  have hres := decode_some_intro (2 :: p.length :: p) (p.length + 2) c
    (by omega) rfl (by rw [g1]; omega) (by rw [g1]; omega) (by rw [g1]; omega)
    (by
      rw [hstrip, g1]
      rintro ⟨hgt, hz⟩
      rw [show (2 + 0 : Nat) = 2 from rfl, g2] at hz
      exact hhead (by omega) hz)
    (by rw [hstrip, g1]; omega)
  rw [hres, g1, hstrip]
  simp only [Nat.add_zero, Nat.sub_zero]
  rw [map_range_getD_cons2, Nat.add_comm 2 p.length]

theorem decode_of_encode_one (p : List Nat) (c : Nat)
    (hpl : 0 < p.length) (hpc : p.length ≤ c) (hL : 1 + p.length ≤ 127)
    (hhead : p.headD 0 ≠ 0) :
    decode_asn1_uint (2 :: (1 + p.length) :: 0 :: p) (1 + p.length + 2) c =
      some (1 + p.length + 2, p.length, List.replicate (c - p.length) 0 ++ p) := by
  have g1 : (2 :: (1 + p.length) :: 0 :: p).getD 1 0 = 1 + p.length := rfl
  have g2 : (2 :: (1 + p.length) :: 0 :: p).getD 2 0 = 0 := rfl
  have g3 : (2 :: (1 + p.length) :: 0 :: p).getD (2 + 1) 0 = p.headD 0 := by
    cases p with
    | nil => simp at hpl
    | cons a t => rfl
  have hstrip : decStrip (2 :: (1 + p.length) :: 0 :: p) = 1 :=
    decStrip_eq_one _ ⟨by rw [g1]; omega, g2⟩
  have hres := decode_some_intro (2 :: (1 + p.length) :: 0 :: p) (1 + p.length + 2) c
    (by omega) rfl (by rw [g1]; omega) (by rw [g1]; omega) (by rw [g1]; omega)
    (by
      rw [hstrip]
      rintro ⟨hgt, hz⟩
      rw [g3] at hz
      exact hhead hz)
    (by rw [hstrip, g1]; omega)
  rw [hres, g1, hstrip]
  rw [show 1 + p.length - 1 = p.length from by omega]
  rw [map_range_getD_cons3]
  rw [show 2 + 1 + p.length = 1 + p.length + 2 from by omega]

/-- C1: for every non-empty byte list v (any width w = v.length ≥ 1, bytes
below 256, covering 0, all-0xFF, and values with or without a set high bit)
whose minimal encoding has a value field of at most 127 bytes, encoding v
with the integer encoder succeeds and decoding the produced TLV into an
output buffer of capacity w succeeds, consumes the whole TLV, reports the
stripped width, and yields exactly the original w bytes (leading zeros
restored by padding). -/
theorem C1_roundtrip (v : List Nat) (h1 : v ≠ []) (_h2 : ∀ b ∈ v, b < 256)
    (h3 : encStuff v + (derPayload v).length ≤ DER_INTEGER_MAX_LEN) :
    ∃ ret tlv, encode_der_integer v (v.length + 3) = some (ret, tlv) ∧
      decode_asn1_uint tlv ret v.length = some (ret, (derPayload v).length, v) := by
  have hpl := derPayload_length_pos v h1
  have hple := derPayload_length_le v
  have hs1 := encStuff_le_one v
  simp only [DER_INTEGER_MAX_LEN] at h3
  have henc := encode_some_intro v (v.length + 3) h1 (by omega) h3
  refine ⟨encStuff v + (derPayload v).length + 2, _, henc, ?_⟩
  rcases (by omega : encStuff v = 0 ∨ encStuff v = 1) with hs | hs
  · rw [hs]
    simp only [List.replicate_zero, List.nil_append, Nat.zero_add]
    have hd := decode_of_encode_zero (derPayload v) v.length hpl hple (by omega)
      (fun h2le => derPayload_headD_ne_zero v h2le)
    rw [hd, derPayload_reconstruct v h1]
  · rw [hs]
    simp only [List.replicate_one, List.singleton_append]
    have hd := decode_of_encode_one (derPayload v) v.length hpl hple (by omega)
      (headD_ne_zero_of_encStuff v hs)
    rw [hd, derPayload_reconstruct v h1]

theorem C1_witness :
    ∃ ret tlv, encode_der_integer [255] ([255].length + 3) = some (ret, tlv) ∧
      decode_asn1_uint tlv ret [255].length
        = some (ret, (derPayload [255]).length, [255]) :=
  C1_roundtrip [255] (by decide) (by decide) (by decide)

theorem decode_cap_zero (asn1 : List Nat) (n : Nat) :
    decode_asn1_uint asn1 n 0 = none := by
  cases hd : decode_asn1_uint asn1 n 0 with
  | none => rfl
  | some v =>
    exfalso
    obtain ⟨consumed, newLen, out⟩ := v
    obtain ⟨-, -, h3, -, -, -, h7, -, -, -⟩ := decode_some_elim hd
    rcases decStrip_cases asn1 with hs | ⟨hs, hgt, -⟩ <;> omega

/-- C8: the signature encoder writes r's TLV at offset 0 and s's TLV
immediately after it at the offset equal to r's TLV size, fails (returning
the failure sentinel without touching the capacity cell) when either
integer encode fails, and on success sets the in-out cell to the sum of
both TLV sizes; for r = s = a 32-byte buffer holding the value 1 and
capacity 6 the output is exactly the 6 bytes 02 01 01 02 01 01 with
reported length 6. -/
theorem C8_signature_encoder :
    (∀ r s cap total out, ecdsa_rs_to_asn1 r s cap = some (total, out) →
      ∃ out_len_r tlv_r out_len_s tlv_s,
        encode_der_integer r cap = some (out_len_r, tlv_r) ∧
        encode_der_integer s (cap - out_len_r) = some (out_len_s, tlv_s) ∧
        tlv_r.length = out_len_r ∧
        out = tlv_r ++ tlv_s ∧ total = out_len_r + out_len_s) ∧
    (∀ r s cap, encode_der_integer r cap = none → ecdsa_rs_to_asn1 r s cap = none) ∧
    (∀ r s cap out_len_r tlv_r, encode_der_integer r cap = some (out_len_r, tlv_r) →
      encode_der_integer s (cap - out_len_r) = none →
      ecdsa_rs_to_asn1 r s cap = none) ∧
    ecdsa_rs_to_asn1 (List.replicate 31 0 ++ [1]) (List.replicate 31 0 ++ [1]) 6 =
      some (6, [2, 1, 1, 2, 1, 1]) := by
  refine ⟨?_, ?_, ?_, by decide⟩
  · intro r s cap total out h
    cases h1 : encode_der_integer r cap with
    | none =>
      rw [ecdsa_rs_to_asn1, h1] at h
      cases h
    | some v =>
      obtain ⟨lr, tr⟩ := v
      rw [ecdsa_rs_to_asn1, h1] at h
      have h' : (match encode_der_integer s (cap - lr) with
          | none => none
          | some (out_len_s, tlv_s) => some (lr + out_len_s, tr ++ tlv_s)) =
          some (total, out) := h
      cases h2 : encode_der_integer s (cap - lr) with
      | none =>
        rw [h2] at h'
        cases h'
      | some w =>
        obtain ⟨ls, ts⟩ := w
        rw [h2] at h'
        rw [Option.some.injEq, Prod.mk.injEq] at h'
        exact ⟨lr, tr, ls, ts, rfl, h2, (encode_tlv_length h1).1, h'.2.symm, h'.1.symm⟩
  · intro r s cap h
    rw [ecdsa_rs_to_asn1, h]
  · intro r s cap lr tr h1 h2
    rw [ecdsa_rs_to_asn1, h1]
    have hred : (match encode_der_integer s (cap - lr) with
        | none => none
        | some (out_len_s, tlv_s) => some (lr + out_len_s, tr ++ tlv_s))
        = (none : Option (Nat × List Nat)) := by rw [h2]
    exact hred

theorem C8_witness :
    ∃ out_len_r tlv_r out_len_s tlv_s,
      encode_der_integer (List.replicate 31 0 ++ [1]) 6 = some (out_len_r, tlv_r) ∧
      encode_der_integer (List.replicate 31 0 ++ [1]) (6 - out_len_r)
        = some (out_len_s, tlv_s) ∧
      tlv_r.length = out_len_r ∧
      [2, 1, 1, 2, 1, 1] = tlv_r ++ tlv_s ∧ 6 = out_len_r + out_len_s :=
  C8_signature_encoder.1 (List.replicate 31 0 ++ [1]) (List.replicate 31 0 ++ [1]) 6 6
    [2, 1, 1, 2, 1, 1] (by decide)

/-- C9: for every odd rs_len the fixed-split signature decoder fails
regardless of the input bytes (it reads nothing), and for every even rs_len
its result is exactly that of the separate-length variant invoked with the
first half of the destination (capacity rs_len / 2) as r and the second
half (capacity rs_len / 2) as s. -/
theorem C9_fixed_split (asn1 : List Nat) (asn1_len rs_len : Nat) :
    (rs_len % 2 = 1 → asn1_to_ecdsa_rs asn1 asn1_len rs_len = none) ∧
    (rs_len % 2 = 0 → asn1_to_ecdsa_rs asn1 asn1_len rs_len =
      Option.map (fun p => p.1.2 ++ p.2.2)
        (asn1_to_ecdsa_rs_sep asn1 asn1_len (rs_len / 2) (rs_len / 2))) := by
  constructor
  · intro hodd
    unfold asn1_to_ecdsa_rs
    rw [if_neg (by omega), if_pos (by omega)]
  · intro heven
    by_cases h0 : rs_len = 0
    · subst h0
      have hsep : asn1_to_ecdsa_rs_sep asn1 asn1_len (0 / 2) (0 / 2) = none := by
        rw [asn1_to_ecdsa_rs_sep, show (0 / 2 : Nat) = 0 from rfl,
          decode_cap_zero asn1 asn1_len]
      rw [hsep, asn1_to_ecdsa_rs, if_pos rfl]
      rfl
    · unfold asn1_to_ecdsa_rs
      rw [if_neg h0, if_neg (by omega)]
      cases hsep : asn1_to_ecdsa_rs_sep asn1 asn1_len (rs_len / 2) (rs_len / 2) with
      | none => rfl
      | some v =>
        obtain ⟨⟨a, r_out⟩, b, s_out⟩ := v
        rfl

theorem C9_witness :
    asn1_to_ecdsa_rs [2, 1, 1, 2, 1, 1] 6 3 = none ∧
    asn1_to_ecdsa_rs [2, 1, 1, 2, 1, 1] 6 2 =
      Option.map (fun p => p.1.2 ++ p.2.2)
        (asn1_to_ecdsa_rs_sep [2, 1, 1, 2, 1, 1] 6 1 1) :=
  ⟨(C9_fixed_split [2, 1, 1, 2, 1, 1] 6 3).1 (by decide),
   (C9_fixed_split [2, 1, 1, 2, 1, 1] 6 2).2 (by decide)⟩

end EcdsaUtils
